import Mathlib

/-!
# Verification of the SortN halo2 circuit (`src/sort/main.rs`, `src/util.rs`)

A shallow embedding of the circuit-construction code of this repository:

* `src/util.rs` — the expression helpers `range_check` and `bool_check`, modelled on a
  small AST `Expression` mirroring the fragment of `halo2_proofs::plonk::Expression`
  that this code builds (constants, advice queries, selector queries, sums, products,
  negation), together with a semantics `Expression.eval`.
* `src/sort/main.rs` — `SortNChip::configure` (constraint-system construction),
  `SortNChip::assign` / `SortNCircuit::synthesize` (witness assignment, modelled as a
  state-and-error computation recording the sequence of region operations), and the
  bubble-sort-with-indices loop of `synthesize`.

The `less_than` module (`crate::less_than`, the `LtChip` gadget) is part of the
repository but its source is not available here; everywhere it is needed it is
modelled from the spec's external contract (§4.2 of the design document): `configure`
stores the given selector/lhs/rhs expressions and column assignments in a handle, and
`is_lt` is an opaque boolean-valued expression produced from the handle at a rotation.
-/

namespace SortN

/-- Rust `const NUM_ELEMENTS: usize = 8;` (src/sort/main.rs line 12). -/
def NUM_ELEMENTS : ℕ := 8

/-- Rust `const NUM_BYTES: usize = 8;` (src/sort/main.rs line 13). -/
def NUM_BYTES : ℕ := 8

/-- The fragment of `halo2_proofs::plonk::Expression` built by this code.
Advice queries carry a column index and a rotation; `a - b` in the source is
`Sum a (Negated b)` and `a * b` is `Product a b`, matching halo2's operator
implementations. -/
inductive Expression (F : Type) where
  | Constant : F → Expression F
  | Selector : ℕ → Expression F
  | Advice : ℕ → ℤ → Expression F
  | Negated : Expression F → Expression F
  | Sum : Expression F → Expression F → Expression F
  | Product : Expression F → Expression F → Expression F
deriving DecidableEq

instance {F : Type} : Inhabited (Expression F) := ⟨Expression.Selector 0⟩

/-- Evaluation of an expression under an assignment of advice cells
(column, rotation) and selector values. -/
def Expression.eval {F : Type} [CommRing F] (adv : ℕ → ℤ → F) (sel : ℕ → F) :
    Expression F → F
  | Expression.Constant c => c
  | Expression.Selector s => sel s
  | Expression.Advice c r => adv c r
  | Expression.Negated e => -(e.eval adv sel)
  | Expression.Sum a b => a.eval adv sel + b.eval adv sel
  | Expression.Product a b => a.eval adv sel * b.eval adv sel

/-- The function `range_check` (src/util.rs lines 4-8):
`(1..range).fold(word.clone(), |acc, i| acc * (Expression::Constant(F::from(i)) - word.clone()))`.
Note the fold's initial accumulator is `word` itself. -/
def range_check {F : Type} [NatCast F] (word : Expression F) (range : ℕ) : Expression F :=
  (List.range' 1 (range - 1)).foldl
    (fun (acc : Expression F) (i : ℕ) =>
      Expression.Product acc
        (Expression.Sum (Expression.Constant (i : F)) (Expression.Negated word)))
    word

/-- The function `bool_check` (src/util.rs lines 11-13): `range_check(value, 2)`. -/
def bool_check {F : Type} [NatCast F] (value : Expression F) : Expression F :=
  range_check value 2

/-- The product named by the spec for `range_check`: "computed as
∏_(i=1)^(range-1) (i − word)" — with no further factor. -/
def rangeCheckSpecProduct {F : Type} [CommRing F] (word : F) (range : ℕ) : F :=
  ((List.range' 1 (range - 1)).map (fun (i : ℕ) => (i : F) - word)).prod

lemma range_check_foldl_eval {F : Type} [CommRing F] (adv : ℕ → ℤ → F) (sel : ℕ → F)
    (word : Expression F) (L : List ℕ) (acc : Expression F) :
    Expression.eval adv sel
      (L.foldl (fun (acc : Expression F) (i : ℕ) =>
        Expression.Product acc
          (Expression.Sum (Expression.Constant (i : F)) (Expression.Negated word))) acc)
      = Expression.eval adv sel acc *
        ((L.map (fun (i : ℕ) => (i : F) - Expression.eval adv sel word)).prod) := by
  induction L generalizing acc with
  | nil => simp
  | cons a t ih =>
    simp only [List.foldl_cons, List.map_cons, List.prod_cons, ih]
    simp only [Expression.eval]
    ring

/-- Evaluation of `range_check`: the code's fold multiplies the word itself by
the spec's product. -/
lemma range_check_eval {F : Type} [CommRing F] (adv : ℕ → ℤ → F) (sel : ℕ → F)
    (word : Expression F) (range : ℕ) :
    Expression.eval adv sel (range_check word range)
      = Expression.eval adv sel word *
        rangeCheckSpecProduct (Expression.eval adv sel word) range := by
  unfold range_check rangeCheckSpecProduct
  exact range_check_foldl_eval adv sel word _ word

/-- C7 (counterexample): at `word = Constant 0` and `range = 2` over `ZMod 17`,
the code's `range_check` evaluates to `0` while the product the claim names,
∏_(i=1)^(r-1) (i − word), evaluates to `1`; so `range_check` does not equal
that product. -/
theorem range_check_not_bare_product :
    Expression.eval (fun _ _ => (0 : ZMod 17)) (fun _ => 0)
        (range_check (Expression.Constant 0) 2)
      ≠ rangeCheckSpecProduct (0 : ZMod 17) 2 := by
  decide

/-- C7 (amended): for every word expression and every range,
`range_check(word, range)` evaluates to `word` times the product
∏_(i=1)^(range-1) (i − word) — the fold starts from `word`, so the word itself
is an additional leading factor beyond the product the spec names. -/
theorem range_check_is_word_times_product {F : Type} [CommRing F]
    (adv : ℕ → ℤ → F) (sel : ℕ → F) (word : Expression F) (range : ℕ) :
    Expression.eval adv sel (range_check word range)
      = Expression.eval adv sel word *
        rangeCheckSpecProduct (Expression.eval adv sel word) range :=
  range_check_eval adv sel word range

lemma range'_prod_eq_zero_iff {F : Type} [Field F] (x : F) :
    ∀ (n s : ℕ),
      (((List.range' s n).map (fun (i : ℕ) => (i : F) - x)).prod = 0 ↔
        ∃ i, s ≤ i ∧ i < s + n ∧ x = (i : F))
  | 0, s => by
    simp only [List.range'_zero, List.map_nil, List.prod_nil]
    constructor
    · intro h; exact absurd h one_ne_zero
    · rintro ⟨i, h1, h2, h3⟩; omega
  | n + 1, s => by
    rw [List.range'_succ]
    simp only [List.map_cons, List.prod_cons, mul_eq_zero, sub_eq_zero,
      range'_prod_eq_zero_iff x n (s + 1)]
    constructor
    · rintro (hx | ⟨i, h1, h2, h3⟩)
      · exact ⟨s, le_refl s, by omega, hx.symm⟩
      · exact ⟨i, by omega, by omega, h3⟩
    · rintro ⟨i, h1, h2, h3⟩
      rcases Nat.eq_or_lt_of_le h1 with rfl | hlt
      · exact Or.inl h3.symm
      · exact Or.inr ⟨i, hlt, by omega, h3⟩

/-- Zeros of the bare product: `rangeCheckSpecProduct x r = 0` iff `x` embeds some integer in `1..r-1`. -/
lemma rangeCheckSpecProduct_eq_zero_iff {F : Type} [Field F] (x : F) (r : ℕ) :
    rangeCheckSpecProduct x r = 0 ↔ ∃ i, 1 ≤ i ∧ i < r ∧ x = (i : F) := by
  unfold rangeCheckSpecProduct
  rw [range'_prod_eq_zero_iff x (r - 1) 1]
  constructor
  · rintro ⟨i, h1, h2, h3⟩; exact ⟨i, h1, by omega, h3⟩
  · rintro ⟨i, h1, h2, h3⟩; exact ⟨i, h1, by omega, h3⟩

/-- C8: `bool_check x = 0` iff `x ∈ {0, 1}`, and for `2 ≤ r ≤ 16`,
`range_check x r = 0` iff `x` is the field embedding of some integer `k < r`. -/
theorem bool_check_and_range_check_zero_iff {F : Type} [Field F]
    (adv : ℕ → ℤ → F) (sel : ℕ → F) (x : F) (r : ℕ) (h2 : 2 ≤ r) (h16 : r ≤ 16) :
    (Expression.eval adv sel (bool_check (Expression.Constant x)) = 0 ↔ x = 0 ∨ x = 1) ∧
    (Expression.eval adv sel (range_check (Expression.Constant x) r) = 0 ↔
      ∃ k, k < r ∧ x = (k : F)) := by
  have heval : ∀ s : ℕ, Expression.eval adv sel (range_check (Expression.Constant x) s)
      = x * rangeCheckSpecProduct x s := fun s => range_check_eval adv sel _ s
  have key : ∀ s : ℕ, (Expression.eval adv sel (range_check (Expression.Constant x) s) = 0 ↔
      x = 0 ∨ ∃ i, 1 ≤ i ∧ i < s ∧ x = (i : F)) := by
    intro s
    rw [heval s, mul_eq_zero, rangeCheckSpecProduct_eq_zero_iff]
  constructor
  · rw [bool_check, key 2]
    constructor
    · rintro (hx | ⟨i, h1, h2, h3⟩)
      · exact Or.inl hx
      · right
        have : i = 1 := by omega
        subst this
        simpa using h3
    · rintro (hx | hx)
      · exact Or.inl hx
      · exact Or.inr ⟨1, le_refl 1, by omega, by simpa using hx⟩
  · rw [key r]
    constructor
    · rintro (hx | ⟨i, h1, h2, h3⟩)
      · exact ⟨0, by omega, by simpa using hx⟩
      · exact ⟨i, h2, h3⟩
    · rintro ⟨k, hk, h3⟩
      rcases Nat.eq_zero_or_pos k with rfl | hkpos
      · left; simpa using h3
      · exact Or.inr ⟨k, hkpos, hk, h3⟩

/-- C8 witness: concrete instance over `ZMod 17` at `x = 3`, `r = 16`. -/
theorem bool_check_and_range_check_zero_iff_witness :
    (Expression.eval (fun _ _ => (0 : ZMod 17)) (fun _ => 0)
        (bool_check (Expression.Constant (3 : ZMod 17))) = 0 ↔
        (3 : ZMod 17) = 0 ∨ (3 : ZMod 17) = 1) ∧
    (Expression.eval (fun _ _ => (0 : ZMod 17)) (fun _ => 0)
        (range_check (Expression.Constant (3 : ZMod 17)) 16) = 0 ↔
      ∃ k : ℕ, k < 16 ∧ (3 : ZMod 17) = (k : ZMod 17)) := by
  have hp : Fact (Nat.Prime 17) := ⟨by norm_num⟩
  exact bool_check_and_range_check_zero_iff (fun _ _ => (0 : ZMod 17)) (fun _ => 0) 3 16
    (by norm_num) (by norm_num)

/-! ## The sorting loop of `SortNCircuit::synthesize` (src/sort/main.rs lines 201-214)

The Rust code keeps two parallel length-8 arrays, `values` and `in_indices`
(initialised to `[0,…,7]`), and swaps them in tandem; this is modelled as a single
list of `(value, original index)` pairs.  The element type carries a `LinearOrder`,
standing for the `Ord` instance of `FieldExt` used by `values[j] < values[j - 1]`. -/

/-- One inner `j`-pass of the bubble sort, as adjacent compare-and-swap over a list of
(value, index) pairs: the loop `for j in 1..len` compares positions `j-1` and `j` and
swaps both components when `values[j] < values[j-1]`.  `bubblePassGo a l` is the pass
over `a :: l`, with `a` the element currently at position `j-1`. -/
def bubblePassGo {α : Type} [LinearOrder α] : (α × ℕ) → List (α × ℕ) → List (α × ℕ)
  | a, [] => [a]
  | a, b :: rest =>
    if b.1 < a.1 then b :: bubblePassGo a rest else a :: bubblePassGo b rest

/-- The full inner pass over a list. -/
def bubblePass {α : Type} [LinearOrder α] : List (α × ℕ) → List (α × ℕ)
  | [] => []
  | a :: rest => bubblePassGo a rest

/-- The pass `for j in 1..m` touches exactly the first `m` elements (positions
`0..m-1`); the rest of the list is untouched. -/
def passAt {α : Type} [LinearOrder α] (m : ℕ) (l : List (α × ℕ)) : List (α × ℕ) :=
  bubblePass (l.take m) ++ l.drop m

/-- The outer loop (src/sort/main.rs lines 207-214):
`for i in 1..n { for j in 1..(n - i + 1) { … } }`. -/
def bubbleSort {α : Type} [LinearOrder α] (n : ℕ) (l : List (α × ℕ)) : List (α × ℕ) :=
  (List.range' 1 (n - 1)).foldl (fun acc i => passAt (n - i + 1) acc) l

/-- The sorting prologue of `SortNCircuit::synthesize`: `in_indices` is initialised to
`[0,…,NUM_ELEMENTS-1]`, the bubble sort is run over (values, in_indices) in tandem,
and the pair (sorted values, permuted indices) is returned. -/
def sortWithIndices {α : Type} [LinearOrder α] (values : List α) : List α × List ℕ :=
  let sorted := bubbleSort NUM_ELEMENTS (values.zip (List.range NUM_ELEMENTS))
  (sorted.map Prod.fst, sorted.map Prod.snd)

lemma bubblePassGo_perm {α : Type} [LinearOrder α] :
    ∀ (t : List (α × ℕ)) (a : α × ℕ), (bubblePassGo a t).Perm (a :: t)
  | [], a => List.Perm.refl [a]
  | b :: rest, a => by
    rw [bubblePassGo]
    by_cases h : b.1 < a.1
    · rw [if_pos h]
      exact ((bubblePassGo_perm rest a).cons b).trans (List.Perm.swap a b rest)
    · rw [if_neg h]
      exact (bubblePassGo_perm rest b).cons a

lemma bubblePass_perm {α : Type} [LinearOrder α] :
    ∀ l : List (α × ℕ), (bubblePass l).Perm l
  | [] => List.Perm.refl []
  | a :: rest => bubblePassGo_perm rest a

lemma bubblePassGo_last_max {α : Type} [LinearOrder α] :
    ∀ (t : List (α × ℕ)) (a : α × ℕ),
      ∃ l2 mx, bubblePassGo a t = l2 ++ [mx] ∧ ∀ x ∈ a :: t, x.1 ≤ mx.1
  | [], a => ⟨[], a, rfl, by simp⟩
  | b :: rest, a => by
    rw [bubblePassGo]
    by_cases h : b.1 < a.1
    · rw [if_pos h]
      obtain ⟨l2, mx, heq, hmax⟩ := bubblePassGo_last_max rest a
      refine ⟨b :: l2, mx, by simp [heq], ?_⟩
      intro x hx
      rcases List.mem_cons.mp hx with rfl | hx
      · exact hmax x (List.mem_cons_self x rest)
      rcases List.mem_cons.mp hx with rfl | hx
      · exact le_of_lt (lt_of_lt_of_le h (hmax a (List.mem_cons_self a rest)))
      · exact hmax x (List.mem_cons_of_mem a hx)
    · rw [if_neg h]
      obtain ⟨l2, mx, heq, hmax⟩ := bubblePassGo_last_max rest b
      refine ⟨a :: l2, mx, by simp [heq], ?_⟩
      intro x hx
      rcases List.mem_cons.mp hx with rfl | hx
      · exact le_trans (not_lt.mp h) (hmax b (List.mem_cons_self b rest))
      · exact hmax x hx

lemma bubblePass_last_max {α : Type} [LinearOrder α] (t : List (α × ℕ)) (a : α × ℕ) :
    ∃ l2 mx, bubblePass (a :: t) = l2 ++ [mx] ∧ ∀ x ∈ a :: t, x.1 ≤ mx.1 :=
  bubblePassGo_last_max t a

lemma bubblePass_mem {α : Type} [LinearOrder α] {l : List (α × ℕ)} {x : α × ℕ} :
    x ∈ bubblePass l ↔ x ∈ l :=
  (bubblePass_perm l).mem_iff

lemma bubblePass_length {α : Type} [LinearOrder α] (l : List (α × ℕ)) :
    (bubblePass l).length = l.length :=
  (bubblePass_perm l).length_eq

lemma bubblePassGo_pairwise {α : Type} [LinearOrder α]
    {R : (α × ℕ) → (α × ℕ) → Prop} (hswap : ∀ x y : α × ℕ, y.1 < x.1 → R y x) :
    ∀ (t : List (α × ℕ)) (a : α × ℕ),
      (a :: t).Pairwise R → (bubblePassGo a t).Pairwise R
  | [], a, h => by rw [bubblePassGo]; exact h
  | b :: rest, a, h => by
    rw [bubblePassGo]
    rcases List.pairwise_cons.mp h with ⟨ha, h2⟩
    rcases List.pairwise_cons.mp h2 with ⟨hb, h3⟩
    by_cases hlt : b.1 < a.1
    · rw [if_pos hlt]
      refine List.pairwise_cons.mpr ⟨?_, ?_⟩
      · intro x hx
        rcases List.mem_cons.mp ((bubblePassGo_perm rest a).mem_iff.mp hx) with rfl | hx
        · exact hswap _ b hlt
        · exact hb x hx
      · exact bubblePassGo_pairwise hswap rest a
          (List.pairwise_cons.mpr ⟨fun x hx => ha x (List.mem_cons_of_mem b hx), h3⟩)
    · rw [if_neg hlt]
      refine List.pairwise_cons.mpr ⟨?_, ?_⟩
      · intro x hx
        exact ha x ((bubblePassGo_perm rest b).mem_iff.mp hx)
      · exact bubblePassGo_pairwise hswap rest b h2

lemma bubblePass_pairwise {α : Type} [LinearOrder α]
    {R : (α × ℕ) → (α × ℕ) → Prop} (hswap : ∀ x y : α × ℕ, y.1 < x.1 → R y x) :
    ∀ (l : List (α × ℕ)), l.Pairwise R → (bubblePass l).Pairwise R
  | [], h => h
  | a :: rest, h => bubblePassGo_pairwise hswap rest a h

/-- The value-ordering relation on (value, index) pairs. -/
abbrev leFst {α : Type} [LinearOrder α] (x y : α × ℕ) : Prop := x.1 ≤ y.1

/-- The stability relation: pairs of equal value keep strictly increasing original
indices. -/
abbrev stRel {α : Type} [LinearOrder α] (x y : α × ℕ) : Prop := x.1 = y.1 → x.2 < y.2

/-- Loop invariant for the truncated bubble passes: with respect to the original
list `l0`, the current list `l` is a permutation of `l0`, its suffix from position
`m` is sorted by value and dominates nothing below it is larger than, and pairs of
equal value appear in increasing original-index order. -/
structure SortInv {α : Type} [LinearOrder α] (l0 l : List (α × ℕ)) (m : ℕ) : Prop where
  perm : l.Perm l0
  sortedSuffix : (l.drop m).Pairwise leFst
  dominated : ∀ x ∈ l.take m, ∀ y ∈ l.drop m, x.1 ≤ y.1
  stable : l.Pairwise stRel

lemma stRel_of_lt {α : Type} [LinearOrder α] (x y : α × ℕ) (h : y.1 < x.1) : stRel y x :=
  fun heq => absurd heq (ne_of_lt h)

lemma sortInv_step {α : Type} [LinearOrder α] {l0 l : List (α × ℕ)} {m : ℕ}
    (h2 : 2 ≤ m) (hm : m ≤ l.length) (h : SortInv l0 l m) :
    SortInv l0 (passAt m l) (m - 1) ∧ (passAt m l).length = l.length := by
  set P := l.take m with hP
  set S := l.drop m with hS
  have hPlen : P.length = m := by
    rw [hP, List.length_take]
    omega
  have hPS : P ++ S = l := List.take_append_drop m l
  obtain ⟨a, t, hat⟩ : ∃ a t, P = a :: t := by
    cases hcase : P with
    | nil => rw [hcase] at hPlen; simp at hPlen; omega
    | cons a t => exact ⟨a, t, rfl⟩
  obtain ⟨l2, mx, heq, hmax⟩ := bubblePass_last_max t a
  rw [← hat] at heq
  have hmax' : ∀ x ∈ P, x.1 ≤ mx.1 := by rw [hat]; exact hmax
  have hpassP : bubblePass P = l2 ++ [mx] := heq
  have hmxP : mx ∈ P := by
    rw [← bubblePass_mem (l := P), hpassP]
    simp
  have hl2P : ∀ x ∈ l2, x ∈ P := by
    intro x hx
    rw [← bubblePass_mem (l := P), hpassP]
    exact List.mem_append_left _ hx
  have hl2len : l2.length = m - 1 := by
    have := bubblePass_length P
    rw [hpassP] at this
    simp at this
    omega
  have hshape : passAt m l = l2 ++ (mx :: S) := by
    rw [passAt, ← hP, ← hS, hpassP, List.append_assoc, List.singleton_append]
  have htake : (passAt m l).take (m - 1) = l2 := by
    rw [hshape]
    exact List.take_left' hl2len
  have hdrop : (passAt m l).drop (m - 1) = mx :: S := by
    rw [hshape]
    exact List.drop_left' hl2len
  have hpasslen : (passAt m l).length = l.length := by
    rw [hshape, ← hPS]
    simp
    omega
  have hperm : (passAt m l).Perm l := by
    rw [passAt, ← hP, ← hS]
    exact ((bubblePass_perm P).append_right S).trans (hPS ▸ List.Perm.refl l)
  refine ⟨⟨hperm.trans h.perm, ?_, ?_, ?_⟩, hpasslen⟩
  · rw [hdrop]
    refine List.pairwise_cons.mpr ⟨?_, h.sortedSuffix⟩
    intro y hy
    exact h.dominated mx hmxP y hy
  · intro x hx y hy
    rw [htake] at hx
    rw [hdrop] at hy
    rcases List.mem_cons.mp hy with rfl | hy
    · exact hmax' x (hl2P x hx)
    · exact h.dominated x (hl2P x hx) y hy
  · rw [hshape, ← List.singleton_append, ← List.append_assoc, ← hpassP]
    have hstP : P.Pairwise stRel := List.Pairwise.sublist (List.take_sublist m l) h.stable
    have hstS : S.Pairwise stRel := List.Pairwise.sublist (List.drop_sublist m l) h.stable
    have hcross : ∀ x ∈ P, ∀ y ∈ S, stRel x y := by
      have := h.stable
      rw [← hPS] at this
      exact (List.pairwise_append.mp this).2.2
    refine List.pairwise_append.mpr ⟨bubblePass_pairwise stRel_of_lt P hstP, hstS, ?_⟩
    intro x hx y hy
    exact hcross x (bubblePass_mem.mp hx) y hy

/-- The sort `bubbleSort 8` unfolded: seven truncated passes, over prefixes of lengths
8, 7, 6, 5, 4, 3, 2 (the outer index `i` runs over `1..8`, the pass length is
`8 - i + 1`). -/
lemma bubbleSort_eight {α : Type} [LinearOrder α] (l : List (α × ℕ)) :
    bubbleSort 8 l =
      passAt 2 (passAt 3 (passAt 4 (passAt 5 (passAt 6 (passAt 7 (passAt 8 l)))))) := rfl

lemma sortInv_init {α : Type} [LinearOrder α] (l0 : List (α × ℕ)) (h8 : l0.length = 8)
    (hst : l0.Pairwise stRel) : SortInv l0 l0 8 := by
  refine ⟨List.Perm.refl l0, ?_, ?_, hst⟩
  · rw [List.drop_eq_nil_of_le (le_of_eq h8)]
    exact List.Pairwise.nil
  · intro x hx y hy
    rw [List.drop_eq_nil_of_le (le_of_eq h8)] at hy
    simp at hy

lemma sortInv_one_sorted {α : Type} [LinearOrder α] {l0 lf : List (α × ℕ)}
    (h : SortInv l0 lf 1) : lf.Pairwise leFst := by
  cases lf with
  | nil => exact List.Pairwise.nil
  | cons c rest =>
    refine List.pairwise_cons.mpr ⟨?_, ?_⟩
    · intro y hy
      exact h.dominated c (by simp) y (by simpa using hy)
    · simpa using h.sortedSuffix

lemma zip_range_pairwise_stRel {α : Type} [LinearOrder α] (values : List α) (n : ℕ) :
    (values.zip (List.range n)).Pairwise stRel := by
  rw [List.pairwise_iff_getElem]
  intro i j hi hj hij
  intro _
  simp only [List.getElem_zip, List.getElem_range]
  exact hij

/-- Correctness bundle for the bubble sort of `synthesize`, over the paired list. -/
lemma bubbleSort_spec {α : Type} [LinearOrder α] (values : List α)
    (h8 : values.length = 8) :
    (bubbleSort 8 (values.zip (List.range 8))).Perm (values.zip (List.range 8)) ∧
    (bubbleSort 8 (values.zip (List.range 8))).Pairwise leFst ∧
    (bubbleSort 8 (values.zip (List.range 8))).Pairwise stRel ∧
    (bubbleSort 8 (values.zip (List.range 8))).length = 8 := by
  set l0 := values.zip (List.range 8) with hl0def
  have hl0 : l0.length = 8 := by
    rw [hl0def, List.length_zip, h8]
    simp
  have h0 : SortInv l0 l0 8 := sortInv_init l0 hl0 (zip_range_pairwise_stRel values 8)
  have s8 := sortInv_step (m := 8) (by norm_num) (by omega) h0
  have s7 := sortInv_step (m := 7) (by norm_num) (by rw [s8.2]; omega) s8.1
  have s6 := sortInv_step (m := 6) (by norm_num) (by rw [s7.2, s8.2]; omega) s7.1
  have s5 := sortInv_step (m := 5) (by norm_num) (by rw [s6.2, s7.2, s8.2]; omega) s6.1
  have s4 := sortInv_step (m := 4) (by norm_num)
    (by rw [s5.2, s6.2, s7.2, s8.2]; omega) s5.1
  have s3 := sortInv_step (m := 3) (by norm_num)
    (by rw [s4.2, s5.2, s6.2, s7.2, s8.2]; omega) s4.1
  have s2 := sortInv_step (m := 2) (by norm_num)
    (by rw [s3.2, s4.2, s5.2, s6.2, s7.2, s8.2]; omega) s3.1
  rw [bubbleSort_eight]
  refine ⟨s2.1.perm, sortInv_one_sorted s2.1, s2.1.stable, ?_⟩
  rw [s2.2, s3.2, s4.2, s5.2, s6.2, s7.2, s8.2]
  exact hl0

lemma mem_zip_range {α : Type} (values : List α) (n : ℕ) {p : α × ℕ}
    (hp : p ∈ values.zip (List.range n)) : p.2 < n ∧ values[p.2]? = some p.1 := by
  obtain ⟨k, hk, he⟩ := List.getElem_of_mem hp
  have hk1 : k < values.length := List.lt_length_left_of_zip hk
  have hk2 : k < n := by
    have := List.lt_length_right_of_zip hk
    simpa using this
  have hpk : p = (values[k], k) := by
    rw [← he]
    simp [List.getElem_zip]
  rw [hpk]
  exact ⟨hk2, List.getElem?_eq_getElem hk1⟩

set_option maxHeartbeats 1000000 in
/-- C5: the sorting loop of `SortNCircuit::synthesize`, for every 8-element input:
writing `(vs, idx) := sortWithIndices values`, the index list `idx` is a permutation
of `{0,…,7}`; `vs[i]` is the original input value at position `idx[i]`; `vs` is
ascending for the element order; and equal values keep their original index order
(stability). -/
theorem synthesize_sort_correct {α : Type} [LinearOrder α] (values : List α)
    (h8 : values.length = NUM_ELEMENTS) :
    ((sortWithIndices values).2).Perm (List.range NUM_ELEMENTS) ∧
    (∀ i, i < NUM_ELEMENTS → ∃ j, j < NUM_ELEMENTS ∧
      ((sortWithIndices values).2)[i]? = some j ∧
      ((sortWithIndices values).1)[i]? = values[j]?) ∧
    ((sortWithIndices values).1).Sorted (fun a b => a ≤ b) ∧
    (∀ i j, i < j → j < NUM_ELEMENTS → ∀ a b,
      ((sortWithIndices values).2)[i]? = some a →
      ((sortWithIndices values).2)[j]? = some b →
      ((sortWithIndices values).1)[i]? = ((sortWithIndices values).1)[j]? →
      a < b) := by
  have h8' : values.length = 8 := h8
  obtain ⟨hperm, hsorted, hstable, hlen⟩ := bubbleSort_spec values h8'
  set lf := bubbleSort 8 (values.zip (List.range 8)) with hlf
  have hvs : (sortWithIndices values).1 = lf.map Prod.fst := rfl
  have hidx : (sortWithIndices values).2 = lf.map Prod.snd := rfl
  refine ⟨?_, ?_, ?_, ?_⟩
  · rw [hidx]
    refine (hperm.map Prod.snd).trans ?_
    rw [List.map_snd_zip values (List.range 8) (by simp [h8'])]
    exact List.Perm.refl _
  · intro i hi
    have hilf : i < lf.length := by rw [hlen]; exact hi
    have hmem : lf[i] ∈ values.zip (List.range 8) :=
      hperm.mem_iff.mp (List.getElem_mem hilf)
    obtain ⟨hj, hval⟩ := mem_zip_range values 8 hmem
    refine ⟨lf[i].2, hj, ?_, ?_⟩
    · rw [hidx, List.getElem?_map, List.getElem?_eq_getElem hilf]
      rfl
    · rw [hvs, List.getElem?_map, List.getElem?_eq_getElem hilf, hval]
      rfl
  · rw [hvs]
    exact List.pairwise_map.mpr hsorted
  · intro i j hij hj a b ha hb hvij
    have hjlf : j < lf.length := by rw [hlen]; exact hj
    have hilf : i < lf.length := lt_trans hij hjlf
    have hst := (List.pairwise_iff_getElem.mp hstable) i j hilf hjlf hij
    rw [hidx, List.getElem?_map, List.getElem?_eq_getElem hilf] at ha
    rw [hidx, List.getElem?_map, List.getElem?_eq_getElem hjlf] at hb
    rw [hvs, List.getElem?_map, List.getElem?_map,
      List.getElem?_eq_getElem hilf, List.getElem?_eq_getElem hjlf] at hvij
    have ha2 : lf[i].2 = a := by simpa using ha
    have hb2 : lf[j].2 = b := by simpa using hb
    have hfst : lf[i].1 = lf[j].1 := by simpa using hvij
    rw [← ha2, ← hb2]
    exact hst hfst

/-- C5 witness: the end-to-end example input of the spec, `[5,3,8,1,9,2,7,4]`. -/
theorem synthesize_sort_correct_witness :
    ((sortWithIndices [5, 3, 8, 1, 9, 2, 7, 4]).2).Perm (List.range NUM_ELEMENTS) ∧
    (∀ i, i < NUM_ELEMENTS → ∃ j, j < NUM_ELEMENTS ∧
      ((sortWithIndices [5, 3, 8, 1, 9, 2, 7, 4]).2)[i]? = some j ∧
      ((sortWithIndices [5, 3, 8, 1, 9, 2, 7, 4]).1)[i]? = [5, 3, 8, 1, 9, 2, 7, 4][j]?) ∧
    ((sortWithIndices ([5, 3, 8, 1, 9, 2, 7, 4] : List ℕ)).1).Sorted (fun a b => a ≤ b) ∧
    (∀ i j, i < j → j < NUM_ELEMENTS → ∀ a b,
      ((sortWithIndices [5, 3, 8, 1, 9, 2, 7, 4]).2)[i]? = some a →
      ((sortWithIndices [5, 3, 8, 1, 9, 2, 7, 4]).2)[j]? = some b →
      ((sortWithIndices ([5, 3, 8, 1, 9, 2, 7, 4] : List ℕ)).1)[i]? =
        ((sortWithIndices [5, 3, 8, 1, 9, 2, 7, 4]).1)[j]? →
      a < b) :=
  synthesize_sort_correct [5, 3, 8, 1, 9, 2, 7, 4] (by decide)

/-! ## Constraint-system construction (`SortNChip::configure`, src/sort/main.rs
lines 40-109, and `SortNCircuit::configure`, lines 184-192)

The halo2 `ConstraintSystem` is modelled by the fragment of its state this code
mutates: counters of allocated selectors and columns (an allocation returns the next
fresh index), the list of gates, and the columns with equality or constants enabled.
Selector and column allocation calls are modelled in closed form: `n` successive
calls return the `n` next indices and bump the counter by `n`. -/

/-- Column kinds of halo2 (advice / instance / fixed). -/
inductive ColumnKind where
  | Advice : ColumnKind
  | Instance : ColumnKind
  | Fixed : ColumnKind
deriving DecidableEq

/-- A column reference: kind and index. -/
structure ColRef where
  kind : ColumnKind
  idx : ℕ
deriving DecidableEq

/-- The fragment of halo2's `ConstraintSystem` state mutated by this code. -/
structure ConstraintSystemM (F : Type) where
  num_selectors : ℕ
  num_advice : ℕ
  num_instance : ℕ
  num_fixed : ℕ
  gates : List (List (Expression F))
  equality : List ColRef
  constants : List ℕ

/-- Model of `meta.selector()`: returns the next fresh selector index. -/
def csSelector {F : Type} (cs : ConstraintSystemM F) : ℕ × ConstraintSystemM F :=
  (cs.num_selectors, { cs with num_selectors := cs.num_selectors + 1 })

/-- Model of `n` successive `meta.selector()` calls (the loop at src/sort/main.rs
lines 52-55): the next `n` fresh indices, in allocation order. -/
def csSelectors {F : Type} (n : ℕ) (cs : ConstraintSystemM F) :
    List ℕ × ConstraintSystemM F :=
  (List.range' cs.num_selectors n, { cs with num_selectors := cs.num_selectors + n })

/-- Model of `n` successive `meta.advice_column()` calls: the next `n` fresh advice column
indices, in allocation order. -/
def csAdviceColumns {F : Type} (n : ℕ) (cs : ConstraintSystemM F) :
    List ℕ × ConstraintSystemM F :=
  (List.range' cs.num_advice n, { cs with num_advice := cs.num_advice + n })

/-- Model of `meta.instance_column()`. -/
def csInstanceColumn {F : Type} (cs : ConstraintSystemM F) : ℕ × ConstraintSystemM F :=
  (cs.num_instance, { cs with num_instance := cs.num_instance + 1 })

/-- Model of `meta.fixed_column()`. -/
def csFixedColumn {F : Type} (cs : ConstraintSystemM F) : ℕ × ConstraintSystemM F :=
  (cs.num_fixed, { cs with num_fixed := cs.num_fixed + 1 })

/-- Model of `meta.enable_equality(column)`. -/
def csEnableEquality {F : Type} (cs : ConstraintSystemM F) (c : ColRef) :
    ConstraintSystemM F :=
  { cs with equality := cs.equality ++ [c] }

/-- Model of `meta.enable_constant(column)`. -/
def csEnableConstant {F : Type} (cs : ConstraintSystemM F) (c : ℕ) :
    ConstraintSystemM F :=
  { cs with constants := cs.constants ++ [c] }

/-- Model of `meta.create_gate(name, constraints)`: appends one gate (the name, "sortN" at the
single call site, is not modelled). -/
def csCreateGate {F : Type} (cs : ConstraintSystemM F) (g : List (Expression F)) :
    ConstraintSystemM F :=
  { cs with gates := cs.gates ++ [g] }

/-- Modelled from the spec: the `LtConfig` handle returned by `LtChip::configure`
(`crate::less_than`, whose source is not under src/). Per the gadget's external
contract (spec §4.2), the handle stores the selector, lhs and rhs expressions it was
configured with, together with the `lt` column and the `diff` byte columns. -/
structure LtConfig (F : Type) where
  q_enable : Expression F
  lhs : Expression F
  rhs : Expression F
  lt_column : ℕ
  diff : List ℕ
deriving DecidableEq

instance {F : Type} : Inhabited (LtConfig F) :=
  ⟨⟨default, default, default, 0, []⟩⟩

/-- Modelled from the spec: the shape of the gadget's `is_lt(meta, rotation)` — an
opaque boolean-valued expression determined by the handle and the query rotation.
The sort chip treats it as a black box, so it is a parameter of the development. -/
def IsLtFun (F : Type) : Type := LtConfig F → ℤ → Expression F

/-- The struct `SortNConfig` (src/sort/main.rs lines 15-24). The `instance` field is called
`instance_col` because `instance` is reserved in Lean. -/
structure SortNConfig (F : Type) where
  advice : List ℕ
  master_selector : ℕ
  instance_col : ℕ
  lt_selectors : List ℕ
  lt_configs : List (LtConfig F)

/-- Rust `usize` subtraction: the result when no underflow occurs, `none` when the
subtraction underflows (a panic at run time; for constant operands, rejected at
compile time). -/
def usizeSub (a b : ℕ) : Option ℕ := if b ≤ a then some (a - b) else none

/-- The extra-advice-column count of src/sort/main.rs line 59:
`NUM_BYTES + 1 - 2 * NUM_ELEMENTS` computed in usize. -/
def extraAdviceCount : Option ℕ := usizeSub (NUM_BYTES + 1) (2 * NUM_ELEMENTS)

/-- The constraint list of the single `create_gate("sortN", …)` call
(src/sort/main.rs lines 78-100): for every `i` in `0..NUM_ELEMENTS-1`, the constraint
`master_selector * (lt_configs[i].is_lt(Rotation(i + 2)) - 1)`. -/
def sortNGateConstraints {F : Type} [One F] (isLtFam : IsLtFun F)
    (master_selector : ℕ) (lt_configs : List (LtConfig F)) : List (Expression F) :=
  (List.range (NUM_ELEMENTS - 1)).map (fun i =>
    Expression.Product (Expression.Selector master_selector)
      (Expression.Sum (isLtFam (lt_configs.getD i default) ((i : ℤ) + 2))
        (Expression.Negated (Expression.Constant 1))))

/-- Model of `SortNChip::configure` (src/sort/main.rs lines 40-109) as a function of the
constraint-system state.  The loop at line 59 pushes `NUM_BYTES + 1 - 2 * NUM_ELEMENTS`
fresh advice columns onto `advice_vec`; that count is computed in usize and underflows
at the fixed constants (see `extraAdviceCount`), so the number of loop iterations is
taken here as a parameter `extraCount`.  `isLtFam` is the spec-modelled `is_lt` of the
LessThanGadget. -/
def configure {F : Type} [One F] (isLtFam : IsLtFun F) (extraCount : ℕ)
    (cs : ConstraintSystemM F) (advice : List ℕ) (inst fixed : ℕ) :
    SortNConfig F × ConstraintSystemM F :=
  let cs1 := csEnableEquality cs ⟨ColumnKind.Instance, inst⟩
  let cs2 := csEnableConstant cs1 fixed
  let cs3 := advice.foldl (fun c a => csEnableEquality c ⟨ColumnKind.Advice, a⟩) cs2
  let p1 := csSelector cs3
  let master_selector := p1.1
  let p2 := csSelectors (NUM_ELEMENTS - 1) p1.2
  let lt_selectors := p2.1
  let p3 := csAdviceColumns extraCount p2.2
  let advice_vec := advice ++ p3.1
  let diff := (List.range' 1 NUM_BYTES).map (fun i => advice_vec.getD i 0)
  let lt_configs := (List.range (NUM_ELEMENTS - 1)).map (fun i =>
    LtConfig.mk
      (Expression.Selector (lt_selectors.getD i 0))
      (Expression.Advice (advice_vec.getD i 0) (-1 - (i : ℤ)))
      (Expression.Advice (advice_vec.getD (i + 1) 0) (-1 - (i : ℤ)))
      (advice_vec.getD 0 0)
      diff)
  let cs4 := csCreateGate p3.2 (sortNGateConstraints isLtFam master_selector lt_configs)
  (⟨advice, master_selector, inst, lt_selectors, lt_configs⟩, cs4)

/-- Model of `SortNCircuit::configure` (src/sort/main.rs lines 184-192): allocate
`2 * NUM_ELEMENTS` advice columns, one instance column and one fixed column on a
fresh constraint system, then delegate to `SortNChip::configure`. -/
def circuitConfigure {F : Type} [One F] (isLtFam : IsLtFun F) (extraCount : ℕ) :
    SortNConfig F × ConstraintSystemM F :=
  let cs0 : ConstraintSystemM F := ⟨0, 0, 0, 0, [], [], []⟩
  let p1 := csAdviceColumns (2 * NUM_ELEMENTS) cs0
  let p2 := csInstanceColumn p1.2
  let p3 := csFixedColumn p2.2
  configure isLtFam extraCount p3.2 p1.1 p2.1 p3.1

/-- C2: the extra-advice-column computation of `SortNChip::configure`
(src/sort/main.rs line 59), `NUM_BYTES + 1 - 2 * NUM_ELEMENTS` in usize, underflows at
the fixed design constants (its exact value is 9 - 16 = -7), so the configure call
aborts instead of running to completion. -/
theorem configure_extra_columns_underflow :
    extraAdviceCount = none ∧
    (NUM_BYTES : ℤ) + 1 - 2 * (NUM_ELEMENTS : ℤ) = -7 := by
  constructor
  · rfl
  · norm_num [NUM_BYTES, NUM_ELEMENTS]

/-! ## Witness assignment (`SortNChip::assign`, src/sort/main.rs lines 111-158;
`SortNChip::expose_public`, lines 160-167; `SortNCircuit::synthesize`, lines 194-227)

The layouter/region interface is modelled as a state-and-error computation: the state
is the ordered list of region operations performed so far, and a structural operation
(selector enable, instance-to-advice assignment, advice copy, instance constraint)
fails — aborting synthesis with an error, as `?` does in the source — exactly when the
environment's oracle `structOk` rejects it.  `LtChip::assign` is spec-modelled
(§4.2): it writes the gadget's internal decomposition witnesses (recorded as one
opaque `ltAssign` operation) and returns a `Result<bool>` supplied by the
environment's `ltResult` oracle; the caller pushes that result into a vector without
inspecting it (lines 150-154). -/

/-- Opaque synthesis error (halo2's `plonk::Error`). -/
abbrev PlonkError : Type := ℕ

/-- One region operation, in the order performed.  Cells are (column, row) pairs of
advice-column index and region row. -/
inductive RegionOp (F : Type) where
  | enableSelector : ℕ → ℕ → RegionOp F
  | assignFromInstance : ℕ → ℕ → ℕ → RegionOp F
  | copyAdvice : ℕ → ℕ → ℕ → ℕ → RegionOp F
  | ltAssign : ℕ → ℕ → F → F → RegionOp F
  | constrainInstance : ℕ → ℕ → ℕ → RegionOp F
deriving DecidableEq

/-- The environment a synthesis run interacts with: which structural operations the
layouter accepts, and (spec-modelled) the `Result<bool>` each `LtChip::assign`
call returns. -/
structure Halo2Env (F : Type) where
  structOk : RegionOp F → Bool
  ltResult : ℕ → Except PlonkError Bool

/-- The synthesis computation: threads the operation trace, may abort with an
error. -/
def SynthM (F α : Type) : Type :=
  List (RegionOp F) → Except PlonkError (α × List (RegionOp F))

def SynthM.pure {F α : Type} (a : α) : SynthM F α := fun tr => Except.ok (a, tr)

def SynthM.bind {F α β : Type} (x : SynthM F α) (f : α → SynthM F β) : SynthM F β :=
  fun tr =>
    match x tr with
    | Except.error e => Except.error e
    | Except.ok (a, tr2) => f a tr2

/-- Perform one structural region operation; fails when the environment rejects
it. -/
def emitOp {F : Type} (env : Halo2Env F) (op : RegionOp F) : SynthM F Unit := fun tr =>
  if env.structOk op then Except.ok ((), tr ++ [op]) else Except.error 0

/-- Rust `Vec` indexing `v[i]`: out of range aborts (an index panic). -/
def vecGet {F α : Type} (l : List α) (i : ℕ) : SynthM F α := fun tr =>
  match l[i]? with
  | some a => Except.ok (a, tr)
  | none => Except.error 1

/-- Model of `region.assign_advice_from_instance(…, instance, instRow, column, row)`:
records the copy and returns the created advice cell `(column, row)`. -/
def assignFromInstanceOp {F : Type} (env : Halo2Env F) (instRow col row : ℕ) :
    SynthM F (ℕ × ℕ) :=
  SynthM.bind (emitOp env (RegionOp.assignFromInstance instRow col row))
    (fun _ => SynthM.pure (col, row))

/-- Model of `cell.copy_advice(…, region, column, row)`: records the equality-constrained copy
and returns the target cell `(column, row)`. -/
def copyAdviceOp {F : Type} (env : Halo2Env F) (src : ℕ × ℕ) (col row : ℕ) :
    SynthM F (ℕ × ℕ) :=
  SynthM.bind (emitOp env (RegionOp.copyAdvice src.1 src.2 col row))
    (fun _ => SynthM.pure (col, row))

/-- Modelled from the spec: `LtChip::assign(region, row, lhs, rhs)` of
`crate::less_than` (source not under src/): writes the gadget's internal witnesses
(one opaque recorded operation) and returns the `Result<bool>` comparison outcome,
supplied by the environment. -/
def ltChipAssign {F : Type} (env : Halo2Env F) (i row : ℕ) (lhs rhs : F) :
    SynthM F (Except PlonkError Bool) := fun tr =>
  Except.ok (env.ltResult i, tr ++ [RegionOp.ltAssign i row lhs rhs])

/-- Loop of src/sort/main.rs lines 124-133: `for (i, column) in
self.config.advice.iter().enumerate()` — note this runs over ALL `2 * NUM_ELEMENTS`
advice columns — copy instance value `i` into `(column, row 0)`, collecting the
created cells `in_cells`.  `n` is the number of iterations; the call site passes
`advice.length`. -/
def assignInputs {F : Type} (env : Halo2Env F) (advice : List ℕ) :
    ℕ → SynthM F (List (ℕ × ℕ))
  | 0 => SynthM.pure []
  | n + 1 =>
    SynthM.bind (assignInputs env advice n) (fun cells =>
    SynthM.bind (assignFromInstanceOp env n (advice.getD n 0) 0) (fun c =>
    SynthM.pure (cells ++ [c])))

/-- Loop of lines 136-144: `output_cells.push(in_cells[in_indices[i]].copy_advice(…,
advice[i], 1))`. -/
def assignOutputs {F : Type} (env : Halo2Env F) (inCells : List (ℕ × ℕ))
    (advice : List ℕ) (inIdx : List ℕ) : ℕ → SynthM F (List (ℕ × ℕ))
  | 0 => SynthM.pure []
  | n + 1 =>
    SynthM.bind (assignOutputs env inCells advice inIdx n) (fun cells =>
    SynthM.bind (vecGet inCells (inIdx.getD n 0)) (fun src =>
    SynthM.bind (copyAdviceOp env src (advice.getD n 0) 1) (fun c =>
    SynthM.pure (cells ++ [c]))))

/-- Loop of lines 147-149: `self.config.lt_selectors[i].enable(region, i + 2)`. -/
def enableLtSelectors {F : Type} (env : Halo2Env F) (ltSelectors : List ℕ) :
    ℕ → SynthM F Unit
  | 0 => SynthM.pure ()
  | n + 1 =>
    SynthM.bind (enableLtSelectors env ltSelectors n) (fun _ =>
    emitOp env (RegionOp.enableSelector (ltSelectors.getD n 0) (n + 2)))

/-- Loop of lines 150-154: `results.push(lt_chip.assign(region, i + 2, values[i],
values[i + 1]))` — the `Result`s are collected but never inspected. -/
def ltAssignLoop {F : Type} [Zero F] (env : Halo2Env F) (values : List F) :
    ℕ → SynthM F (List (Except PlonkError Bool))
  | 0 => SynthM.pure []
  | n + 1 =>
    SynthM.bind (ltAssignLoop env values n) (fun results =>
    SynthM.bind (ltChipAssign env n (n + 2) (values.getD n 0) (values.getD (n + 1) 0))
      (fun r =>
    SynthM.pure (results ++ [r])))

/-- Model of `SortNChip::assign` (src/sort/main.rs lines 111-158): the single region "sort".
Enable the master selector at row 0; copy every instance value into row 0 of the
corresponding advice column; copy `in_cells[in_indices[i]]` to `(advice[i], row 1)`
for `i` in `0..NUM_ELEMENTS`; enable comparator selector `i` at row `i + 2`; invoke
`LtChip::assign` for each comparator on `(values[i], values[i+1])`, collecting the
results unread; return the output cells. -/
def chipAssign {F : Type} [Zero F] (env : Halo2Env F) (cfg : SortNConfig F)
    (inIdx : List ℕ) (values : List F) : SynthM F (List (ℕ × ℕ)) :=
  SynthM.bind (emitOp env (RegionOp.enableSelector cfg.master_selector 0)) (fun _ =>
  SynthM.bind (assignInputs env cfg.advice cfg.advice.length) (fun inCells =>
  SynthM.bind (assignOutputs env inCells cfg.advice inIdx NUM_ELEMENTS) (fun outCells =>
  SynthM.bind (enableLtSelectors env cfg.lt_selectors (NUM_ELEMENTS - 1)) (fun _ =>
  SynthM.bind (ltAssignLoop env values (NUM_ELEMENTS - 1)) (fun _results =>
  SynthM.pure outCells)))))

/-- Loop of lines 218-224: `chip.expose_public(…, output_cells[i], i + NUM_ELEMENTS)`,
where `expose_public` (lines 160-167) is `layouter.constrain_instance(cell, instance,
row)`. -/
def exposeOutputs {F : Type} (env : Halo2Env F) (outCells : List (ℕ × ℕ)) :
    ℕ → SynthM F Unit
  | 0 => SynthM.pure ()
  | n + 1 =>
    SynthM.bind (exposeOutputs env outCells n) (fun _ =>
    emitOp env (RegionOp.constrainInstance (outCells.getD n (0, 0)).1
      (outCells.getD n (0, 0)).2 (n + NUM_ELEMENTS)))

/-- Model of `SortNCircuit::synthesize` (src/sort/main.rs lines 194-227): bubble-sort the
private values together with their original indices, run the chip assignment, then
constrain output cell `i` to public-instance row `i + NUM_ELEMENTS`. -/
def synthesize {F : Type} [LinearOrder F] [Zero F] (env : Halo2Env F)
    (cfg : SortNConfig F) (selfValues : List F) : SynthM F Unit :=
  let p := sortWithIndices selfValues
  SynthM.bind (chipAssign env cfg p.2 p.1) (fun outCells =>
  exposeOutputs env outCells NUM_ELEMENTS)

/-- One synthesis run, from an empty region trace. -/
def synthRun {F : Type} [LinearOrder F] [Zero F] (env : Halo2Env F)
    (cfg : SortNConfig F) (selfValues : List F) :
    Except PlonkError (Unit × List (RegionOp F)) :=
  synthesize env cfg selfValues []

/-- The operation trace of a run (`[]` for a failed run). -/
def runTrace {F : Type} [LinearOrder F] [Zero F] (env : Halo2Env F)
    (cfg : SortNConfig F) (selfValues : List F) : List (RegionOp F) :=
  match synthRun env cfg selfValues with
  | Except.ok (_, tr) => tr
  | Except.error _ => []

/-- The region-operation sequence of a successful synthesis, as a function of the
private values (and the config) alone. -/
def canonicalTrace {F : Type} [LinearOrder F] [Zero F] (cfg : SortNConfig F)
    (selfValues : List F) : List (RegionOp F) :=
  let p := sortWithIndices selfValues
  RegionOp.enableSelector cfg.master_selector 0 ::
  ((List.range cfg.advice.length).map (fun i =>
      RegionOp.assignFromInstance i (cfg.advice.getD i 0) 0)
    ++ (List.range NUM_ELEMENTS).map (fun i =>
      RegionOp.copyAdvice (cfg.advice.getD (p.2.getD i 0) 0) 0 (cfg.advice.getD i 0) 1)
    ++ (List.range (NUM_ELEMENTS - 1)).map (fun i =>
      RegionOp.enableSelector (cfg.lt_selectors.getD i 0) (i + 2))
    ++ (List.range (NUM_ELEMENTS - 1)).map (fun i =>
      RegionOp.ltAssign i (i + 2) (p.1.getD i 0) (p.1.getD (i + 1) 0))
    ++ (List.range NUM_ELEMENTS).map (fun i =>
      RegionOp.constrainInstance (cfg.advice.getD i 0) 1 (i + NUM_ELEMENTS)))

lemma getD_map_range {β : Type} (f : ℕ → β) (d : β) {n i : ℕ} (h : i < n) :
    ((List.range n).map f).getD i d = f i := by
  rw [List.getD_eq_getElem?_getD, List.getElem?_map, List.getElem?_range h]
  rfl

lemma emitOp_ok {F : Type} {env : Halo2Env F} (hok : ∀ op, env.structOk op = true)
    (op : RegionOp F) (tr : List (RegionOp F)) :
    emitOp env op tr = Except.ok ((), tr ++ [op]) := by
  simp [emitOp, hok op]

lemma vecGet_ok {F α : Type} (l : List α) (i : ℕ) (h : i < l.length) (d : α)
    (tr : List (RegionOp F)) :
    vecGet l i tr = Except.ok (l.getD i d, tr) := by
  simp [vecGet, List.getElem?_eq_getElem h, List.getD_eq_getElem?_getD]

lemma assignInputs_ok {F : Type} {env : Halo2Env F} (hok : ∀ op, env.structOk op = true)
    (advice : List ℕ) :
    ∀ (n : ℕ) (tr : List (RegionOp F)),
      assignInputs env advice n tr =
        Except.ok ((List.range n).map (fun i => ((advice.getD i 0), 0)),
          tr ++ (List.range n).map (fun i =>
            RegionOp.assignFromInstance i (advice.getD i 0) 0))
  | 0, tr => by simp [assignInputs, SynthM.pure]
  | n + 1, tr => by
    have ih := assignInputs_ok hok advice n tr
    simp only [assignInputs, SynthM.bind, ih, assignFromInstanceOp, emitOp_ok hok,
      SynthM.pure]
    rw [List.range_succ]
    simp [List.map_append, List.append_assoc]

lemma assignOutputs_ok {F : Type} [Zero F] {env : Halo2Env F}
    (hok : ∀ op, env.structOk op = true) (inCells : List (ℕ × ℕ))
    (advice inIdx : List ℕ) :
    ∀ (n : ℕ) (tr : List (RegionOp F)),
      (∀ i, i < n → inIdx.getD i 0 < inCells.length) →
      assignOutputs env inCells advice inIdx n tr =
        Except.ok ((List.range n).map (fun i => ((advice.getD i 0), 1)),
          tr ++ (List.range n).map (fun i =>
            RegionOp.copyAdvice (inCells.getD (inIdx.getD i 0) (0, 0)).1
              (inCells.getD (inIdx.getD i 0) (0, 0)).2 (advice.getD i 0) 1))
  | 0, tr, _ => by simp [assignOutputs, SynthM.pure]
  | n + 1, tr, hidx => by
    have ih := assignOutputs_ok hok inCells advice inIdx n tr (fun i hi => hidx i (by omega))
    simp only [assignOutputs, SynthM.bind, ih, copyAdviceOp, emitOp_ok hok, SynthM.pure,
      vecGet_ok inCells (inIdx.getD n 0) (hidx n (by omega)) (0, 0)]
    rw [List.range_succ]
    simp [List.map_append, List.append_assoc]

lemma enableLtSelectors_ok {F : Type} {env : Halo2Env F}
    (hok : ∀ op, env.structOk op = true) (ltSelectors : List ℕ) :
    ∀ (n : ℕ) (tr : List (RegionOp F)),
      enableLtSelectors env ltSelectors n tr =
        Except.ok ((), tr ++ (List.range n).map (fun i =>
          RegionOp.enableSelector (ltSelectors.getD i 0) (i + 2)))
  | 0, tr => by simp [enableLtSelectors, SynthM.pure]
  | n + 1, tr => by
    have ih := enableLtSelectors_ok hok ltSelectors n tr
    simp only [enableLtSelectors, SynthM.bind, ih, emitOp_ok hok]
    rw [List.range_succ]
    simp [List.map_append, List.append_assoc]

lemma ltAssignLoop_ok {F : Type} [Zero F] (env : Halo2Env F) (values : List F) :
    ∀ (n : ℕ) (tr : List (RegionOp F)),
      ltAssignLoop env values n tr =
        Except.ok ((List.range n).map env.ltResult,
          tr ++ (List.range n).map (fun i =>
            RegionOp.ltAssign i (i + 2) (values.getD i 0) (values.getD (i + 1) 0)))
  | 0, tr => by simp [ltAssignLoop, SynthM.pure]
  | n + 1, tr => by
    have ih := ltAssignLoop_ok env values n tr
    simp only [ltAssignLoop, SynthM.bind, ih, ltChipAssign, SynthM.pure]
    rw [List.range_succ]
    simp [List.map_append, List.append_assoc]

lemma exposeOutputs_ok {F : Type} {env : Halo2Env F}
    (hok : ∀ op, env.structOk op = true) (outCells : List (ℕ × ℕ)) :
    ∀ (n : ℕ) (tr : List (RegionOp F)),
      exposeOutputs env outCells n tr =
        Except.ok ((), tr ++ (List.range n).map (fun i =>
          RegionOp.constrainInstance (outCells.getD i (0, 0)).1
            (outCells.getD i (0, 0)).2 (i + NUM_ELEMENTS)))
  | 0, tr => by simp [exposeOutputs, SynthM.pure]
  | n + 1, tr => by
    have ih := exposeOutputs_ok hok outCells n tr
    simp only [exposeOutputs, SynthM.bind, ih, emitOp_ok hok]
    rw [List.range_succ]
    simp [List.map_append, List.append_assoc]

/-- Entries of the permutation computed by the sort are below 8. -/
lemma sortWithIndices_idx_lt {α : Type} [LinearOrder α] (values : List α)
    (h8 : values.length = 8) (i : ℕ) :
    (sortWithIndices values).2.getD i 0 < 8 := by
  obtain ⟨hperm, hsorted, hstable, hlen⟩ := bubbleSort_spec values h8
  set lf := bubbleSort 8 (values.zip (List.range 8)) with hlfdef
  have hidx : (sortWithIndices values).2 = lf.map Prod.snd := rfl
  rw [hidx]
  by_cases hi : i < lf.length
  · rw [List.getD_eq_getElem?_getD, List.getElem?_map, List.getElem?_eq_getElem hi]
    have hm : lf[i] ∈ values.zip (List.range 8) :=
      hperm.mem_iff.mp (List.getElem_mem hi)
    simpa using (mem_zip_range values 8 hm).1
  · rw [List.getD_eq_getElem?_getD, List.getElem?_map,
      List.getElem?_eq_none (by omega)]
    norm_num

lemma chipAssign_ok {F : Type} [Zero F] {env : Halo2Env F}
    (hok : ∀ op, env.structOk op = true) (cfg : SortNConfig F)
    (inIdx : List ℕ) (values : List F) (tr : List (RegionOp F))
    (hidx : ∀ i, i < NUM_ELEMENTS → inIdx.getD i 0 < cfg.advice.length) :
    chipAssign env cfg inIdx values tr =
      Except.ok ((List.range NUM_ELEMENTS).map (fun i => ((cfg.advice.getD i 0), 1)),
        tr ++ (RegionOp.enableSelector cfg.master_selector 0 ::
          ((List.range cfg.advice.length).map (fun i =>
              RegionOp.assignFromInstance i (cfg.advice.getD i 0) 0)
            ++ (List.range NUM_ELEMENTS).map (fun i =>
              RegionOp.copyAdvice (cfg.advice.getD (inIdx.getD i 0) 0) 0
                (cfg.advice.getD i 0) 1)
            ++ (List.range (NUM_ELEMENTS - 1)).map (fun i =>
              RegionOp.enableSelector (cfg.lt_selectors.getD i 0) (i + 2))
            ++ (List.range (NUM_ELEMENTS - 1)).map (fun i =>
              RegionOp.ltAssign i (i + 2) (values.getD i 0) (values.getD (i + 1) 0))))) := by
  set inCells := (List.range cfg.advice.length).map
    (fun i => ((cfg.advice.getD i 0), 0)) with hinCells
  have hlen : inCells.length = cfg.advice.length := by
    rw [hinCells, List.length_map, List.length_range]
  have hidx2 : ∀ i, i < NUM_ELEMENTS → inIdx.getD i 0 < inCells.length := by
    intro i hi
    rw [hlen]
    exact hidx i hi
  have houts := fun tr2 =>
    assignOutputs_ok hok inCells cfg.advice inIdx NUM_ELEMENTS tr2 hidx2
  have hcell : ∀ i, i < NUM_ELEMENTS →
      inCells.getD (inIdx.getD i 0) (0, 0) = ((cfg.advice.getD (inIdx.getD i 0) 0), 0) := by
    intro i hi
    rw [hinCells]
    exact getD_map_range _ _ (hidx i hi)
  have hmapeq : (List.range NUM_ELEMENTS).map (fun i =>
        RegionOp.copyAdvice (F := F) (inCells.getD (inIdx.getD i 0) (0, 0)).1
          (inCells.getD (inIdx.getD i 0) (0, 0)).2 (cfg.advice.getD i 0) 1)
      = (List.range NUM_ELEMENTS).map (fun i =>
        RegionOp.copyAdvice (cfg.advice.getD (inIdx.getD i 0) 0) 0
          (cfg.advice.getD i 0) 1) := by
    refine List.map_congr_left ?_
    intro i hi
    rw [hcell i (List.mem_range.mp hi)]
  simp only [chipAssign, SynthM.bind, emitOp_ok hok, assignInputs_ok hok, ← hinCells,
    houts, hmapeq, enableLtSelectors_ok hok, ltAssignLoop_ok env values, SynthM.pure]
  simp [List.append_assoc]

lemma synthRun_ok {F : Type} [LinearOrder F] [Zero F] {env : Halo2Env F}
    (hok : ∀ op, env.structOk op = true) (cfg : SortNConfig F) (values : List F)
    (h8 : values.length = NUM_ELEMENTS) (hadv : cfg.advice.length = 2 * NUM_ELEMENTS) :
    synthRun env cfg values = Except.ok ((), canonicalTrace cfg values) := by
  have hidx : ∀ i, i < NUM_ELEMENTS →
      (sortWithIndices values).2.getD i 0 < cfg.advice.length := by
    intro i hi
    have h := sortWithIndices_idx_lt values h8 i
    rw [hadv]
    simp only [NUM_ELEMENTS] at h ⊢
    omega
  set outCells := (List.range NUM_ELEMENTS).map
    (fun i => ((cfg.advice.getD i 0), 1)) with houtCells
  have hcell : ∀ i, i < NUM_ELEMENTS →
      outCells.getD i (0, 0) = ((cfg.advice.getD i 0), 1) := by
    intro i hi
    rw [houtCells]
    exact getD_map_range _ _ hi
  have hmapeq : (List.range NUM_ELEMENTS).map (fun i =>
        RegionOp.constrainInstance (F := F) (outCells.getD i (0, 0)).1
          (outCells.getD i (0, 0)).2 (i + NUM_ELEMENTS))
      = (List.range NUM_ELEMENTS).map (fun i =>
        RegionOp.constrainInstance (cfg.advice.getD i 0) 1 (i + NUM_ELEMENTS)) := by
    refine List.map_congr_left ?_
    intro i hi
    rw [hcell i (List.mem_range.mp hi)]
  unfold synthRun synthesize
  simp only [SynthM.bind, chipAssign_ok hok cfg _ _ _ hidx, ← houtCells,
    exposeOutputs_ok hok, hmapeq, canonicalTrace]
  simp [List.append_assoc]

/-! ## Claims about the configuration and the assignment trace -/

/-- Is this op an instance-to-advice copy (`assign_advice_from_instance`)? -/
def isInstanceCopy {F : Type} : RegionOp F → Bool
  | RegionOp.assignFromInstance _ _ _ => true
  | _ => false

/-- Is this op an instance-to-advice copy into row 0? -/
def isInstanceCopyRow0 {F : Type} : RegionOp F → Bool
  | RegionOp.assignFromInstance _ _ row => row == 0
  | _ => false

/-- Is this op a `constrain_instance` equality constraint? -/
def isConstrainInstance {F : Type} : RegionOp F → Bool
  | RegionOp.constrainInstance _ _ _ => true
  | _ => false

/-- A permissive environment over `Fin 17`: every structural operation succeeds, and
every `LtChip::assign` returns `Err` (which the circuit ignores). -/
def envSample : Halo2Env (Fin 17) := ⟨fun _ => true, fun _ => Except.error 0⟩

/-- A concrete `is_lt` instantiation: constantly the expression `1`. -/
def isLtOne : IsLtFun (Fin 17) := fun _ _ => Expression.Constant 1

/-- The configuration produced by the model of `SortNCircuit::configure` over
`Fin 17`, with zero extra advice columns. -/
def sampleConfig : SortNConfig (Fin 17) := (circuitConfigure isLtOne 0).1

/-- The spec's end-to-end example input `[5,3,8,1,9,2,7,4]`, over `Fin 17`. -/
def sampleValues : List (Fin 17) := [5, 3, 8, 1, 9, 2, 7, 4]

/-- C1 (counterexample): on the concrete run with inputs `[5,3,8,1,9,2,7,4]`, the
assignment makes 16 = 2N instance-to-advice copies into row 0 — the loop at
src/sort/main.rs lines 125-133 runs over all `2 * NUM_ELEMENTS` advice columns — and
among them is a copy from instance position 8, a claimed sorted output, not one of
the N raw inputs.  So the N input copies are neither one per input only, nor the only
instance-to-advice copies into row 0. -/
theorem assign_copies_more_than_inputs :
    ((runTrace envSample sampleConfig sampleValues).filter isInstanceCopyRow0).length
        = 16 ∧
    RegionOp.assignFromInstance 8 8 0 ∈ runTrace envSample sampleConfig sampleValues
    := by decide

/-- C1 (amended): in every successful run, the instance-to-advice copies into row 0
are exactly 2N of them, instance position `i` into `(advice[i], row 0)` for each `i`
in `0..2N-1` — the N raw inputs (instance positions 0..N-1) among them — and these
are also the only instance-to-advice copies made anywhere. -/
theorem assign_instance_to_advice_copies {F : Type} [LinearOrder F] [Zero F]
    (env : Halo2Env F) (cfg : SortNConfig F) (values : List F)
    (hok : ∀ op, env.structOk op = true) (h8 : values.length = NUM_ELEMENTS)
    (hadv : cfg.advice.length = 2 * NUM_ELEMENTS) :
    (runTrace env cfg values).filter isInstanceCopyRow0
      = (List.range (2 * NUM_ELEMENTS)).map (fun i =>
          RegionOp.assignFromInstance i (cfg.advice.getD i 0) 0) ∧
    (runTrace env cfg values).filter isInstanceCopy
      = (runTrace env cfg values).filter isInstanceCopyRow0 := by
  have htr : runTrace env cfg values = canonicalTrace cfg values := by
    unfold runTrace
    rw [synthRun_ok hok cfg values h8 hadv]
  have hfilter : ∀ p : RegionOp F → Bool,
      (∀ iRow col, p (RegionOp.assignFromInstance iRow col 0) = true) →
      (∀ a b c d, p (RegionOp.copyAdvice a b c d) = false) →
      (∀ a b, p (RegionOp.enableSelector a b) = false) →
      (∀ a b x y, p (RegionOp.ltAssign a b x y) = false) →
      (∀ a b c, p (RegionOp.constrainInstance a b c) = false) →
      (canonicalTrace cfg values).filter p
        = (List.range cfg.advice.length).map (fun i =>
            RegionOp.assignFromInstance i (cfg.advice.getD i 0) 0) := by
    intro p hp1 hp2 hp3 hp4 hp5
    unfold canonicalTrace
    rw [List.filter_cons_of_neg (by simp [hp3]), List.filter_append, List.filter_append,
      List.filter_append, List.filter_append]
    rw [List.filter_eq_self.mpr ?_, List.filter_eq_nil_iff.mpr ?_,
      List.filter_eq_nil_iff.mpr ?_, List.filter_eq_nil_iff.mpr ?_,
      List.filter_eq_nil_iff.mpr ?_]
    · simp
    · intro a ha
      rcases List.mem_map.mp ha with ⟨i, _, rfl⟩
      simp [hp5]
    · intro a ha
      rcases List.mem_map.mp ha with ⟨i, _, rfl⟩
      simp [hp4]
    · intro a ha
      rcases List.mem_map.mp ha with ⟨i, _, rfl⟩
      simp [hp3]
    · intro a ha
      rcases List.mem_map.mp ha with ⟨i, _, rfl⟩
      simp [hp2]
    · intro a ha
      rcases List.mem_map.mp ha with ⟨i, _, rfl⟩
      exact hp1 _ _
  constructor
  · rw [htr, hfilter isInstanceCopyRow0 (fun _ _ => rfl) (fun _ _ _ _ => rfl)
      (fun _ _ => rfl) (fun _ _ _ _ => rfl) (fun _ _ _ => rfl), hadv]
  · rw [htr, hfilter isInstanceCopy (fun _ _ => rfl) (fun _ _ _ _ => rfl)
      (fun _ _ => rfl) (fun _ _ _ _ => rfl) (fun _ _ _ => rfl),
      hfilter isInstanceCopyRow0 (fun _ _ => rfl) (fun _ _ _ _ => rfl)
      (fun _ _ => rfl) (fun _ _ _ _ => rfl) (fun _ _ _ => rfl)]

/-- C1 (amended) witness: concrete instantiation over `Fin 17`. -/
theorem assign_instance_to_advice_copies_witness :
    (runTrace envSample sampleConfig sampleValues).filter isInstanceCopyRow0
      = (List.range (2 * NUM_ELEMENTS)).map (fun i =>
          RegionOp.assignFromInstance i (sampleConfig.advice.getD i 0) 0) ∧
    (runTrace envSample sampleConfig sampleValues).filter isInstanceCopy
      = (runTrace envSample sampleConfig sampleValues).filter isInstanceCopyRow0 :=
  assign_instance_to_advice_copies envSample sampleConfig sampleValues
    (fun _ => rfl) (by decide) (by decide)

/-- C9: in every successful run, the `constrain_instance` equality constraints are
exactly: the i-th sorted output cell `(advice[i], row 1)` to public-instance row
`i + NUM_ELEMENTS`, for `i` in `0..N-1` — so the claimed sorted values occupy
instance positions `N..2N-1` — while instance positions `0..N-1` are bound by the
row-0 instance-to-advice copies performed during assign. -/
theorem synthesize_exposes_sorted_at_N {F : Type} [LinearOrder F] [Zero F]
    (env : Halo2Env F) (cfg : SortNConfig F) (values : List F)
    (hok : ∀ op, env.structOk op = true) (h8 : values.length = NUM_ELEMENTS)
    (hadv : cfg.advice.length = 2 * NUM_ELEMENTS) :
    (runTrace env cfg values).filter isConstrainInstance
      = (List.range NUM_ELEMENTS).map (fun i =>
          RegionOp.constrainInstance (cfg.advice.getD i 0) 1 (i + NUM_ELEMENTS)) ∧
    (∀ i, i < NUM_ELEMENTS →
      RegionOp.assignFromInstance i (cfg.advice.getD i 0) 0
        ∈ runTrace env cfg values) := by
  have htr : runTrace env cfg values = canonicalTrace cfg values := by
    unfold runTrace
    rw [synthRun_ok hok cfg values h8 hadv]
  rw [htr]
  constructor
  · unfold canonicalTrace
    rw [List.filter_cons_of_neg (by simp [isConstrainInstance]), List.filter_append,
      List.filter_append, List.filter_append, List.filter_append]
    rw [List.filter_eq_nil_iff.mpr ?_, List.filter_eq_nil_iff.mpr ?_,
      List.filter_eq_nil_iff.mpr ?_, List.filter_eq_nil_iff.mpr ?_,
      List.filter_eq_self.mpr ?_]
    · simp
    · intro a ha
      rcases List.mem_map.mp ha with ⟨i, _, rfl⟩
      rfl
    · intro a ha
      rcases List.mem_map.mp ha with ⟨i, _, rfl⟩
      simp [isConstrainInstance]
    · intro a ha
      rcases List.mem_map.mp ha with ⟨i, _, rfl⟩
      simp [isConstrainInstance]
    · intro a ha
      rcases List.mem_map.mp ha with ⟨i, _, rfl⟩
      simp [isConstrainInstance]
    · intro a ha
      rcases List.mem_map.mp ha with ⟨i, _, rfl⟩
      simp [isConstrainInstance]
  · intro i hi
    have hi16 : i < cfg.advice.length := by
      rw [hadv]
      simp only [NUM_ELEMENTS] at hi ⊢
      omega
    unfold canonicalTrace
    refine List.mem_cons_of_mem _
      (List.mem_append_left _ (List.mem_append_left _
        (List.mem_append_left _ (List.mem_append_left _ ?_))))
    exact List.mem_map.mpr ⟨i, List.mem_range.mpr hi16, rfl⟩

/-- C9 witness: concrete instantiation over `Fin 17`. -/
theorem synthesize_exposes_sorted_at_N_witness :
    (runTrace envSample sampleConfig sampleValues).filter isConstrainInstance
      = (List.range NUM_ELEMENTS).map (fun i =>
          RegionOp.constrainInstance (sampleConfig.advice.getD i 0) 1
            (i + NUM_ELEMENTS)) ∧
    (∀ i, i < NUM_ELEMENTS →
      RegionOp.assignFromInstance i (sampleConfig.advice.getD i 0) 0
        ∈ runTrace envSample sampleConfig sampleValues) :=
  synthesize_exposes_sorted_at_N envSample sampleConfig sampleValues
    (fun _ => rfl) (by decide) (by decide)

/-- C6: synthesis returns `Ok` whenever all structural operations succeed, whatever
the LessThanGadget assignment results are: the run's outcome is the same `ok` (with
the same trace) for every choice of `ltResult` — including all-failing ones — because
each comparator's `Result` is collected but never inspected or propagated; gate
satisfaction is never checked at synthesis time. -/
theorem synthesize_ok_ignores_lt_results {F : Type} [LinearOrder F] [Zero F]
    (env : Halo2Env F) (cfg : SortNConfig F) (values : List F)
    (hok : ∀ op, env.structOk op = true) (h8 : values.length = NUM_ELEMENTS)
    (hadv : cfg.advice.length = 2 * NUM_ELEMENTS) :
    ∃ tr, synthRun env cfg values = Except.ok ((), tr) ∧
      ∀ ltRes : ℕ → Except PlonkError Bool,
        synthRun { structOk := env.structOk, ltResult := ltRes } cfg values
          = Except.ok ((), tr) := by
  refine ⟨canonicalTrace cfg values, synthRun_ok hok cfg values h8 hadv, ?_⟩
  intro ltRes
  exact @synthRun_ok F _ _ ⟨env.structOk, ltRes⟩ hok cfg values h8 hadv

/-- C6 witness: concrete instantiation over `Fin 17`, with duplicate input values
(`[3,3,1,1,2,2,4,4]`, an unsatisfiable witness for the strict sortedness gate): the
run still returns `ok`, for every lt-assignment outcome. -/
theorem synthesize_ok_ignores_lt_results_witness :
    ∃ tr, synthRun envSample sampleConfig [3, 3, 1, 1, 2, 2, 4, 4]
        = Except.ok ((), tr) ∧
      ∀ ltRes : ℕ → Except PlonkError Bool,
        synthRun { structOk := envSample.structOk, ltResult := ltRes } sampleConfig
            [3, 3, 1, 1, 2, 2, 4, 4]
          = Except.ok ((), tr) :=
  synthesize_ok_ignores_lt_results envSample sampleConfig
    [3, 3, 1, 1, 2, 2, 4, 4] (fun _ => rfl) (by decide) (by decide)

/-- C10: synthesis is deterministic — two runs in any two accepting environments on
equal private values perform the identical operation sequence and produce the
identical result; the sorted values and permutation indices are the pure function
`sortWithIndices` of the private values, and the operation trace is the pure function
`canonicalTrace` of the private values and the config. -/
theorem synthesize_deterministic {F : Type} [LinearOrder F] [Zero F]
    (env1 env2 : Halo2Env F) (cfg : SortNConfig F) (v1 v2 : List F)
    (heq : v1 = v2)
    (hok1 : ∀ op, env1.structOk op = true) (hok2 : ∀ op, env2.structOk op = true)
    (h8 : v1.length = NUM_ELEMENTS) (hadv : cfg.advice.length = 2 * NUM_ELEMENTS) :
    synthRun env1 cfg v1 = synthRun env2 cfg v2 ∧
    runTrace env1 cfg v1 = runTrace env2 cfg v2 ∧
    sortWithIndices v1 = sortWithIndices v2 ∧
    synthRun env1 cfg v1 = Except.ok ((), canonicalTrace cfg v1) := by
  subst heq
  have r1 := synthRun_ok hok1 cfg v1 h8 hadv
  have r2 := synthRun_ok hok2 cfg v1 h8 hadv
  refine ⟨r1.trans r2.symm, ?_, rfl, r1⟩
  unfold runTrace
  rw [r1, r2]

/-- C10 witness: two concrete environments (lt assignments all failing vs all
succeeding) over `Fin 17`. -/
theorem synthesize_deterministic_witness :
    synthRun envSample sampleConfig sampleValues
        = synthRun ⟨fun _ => true, fun _ => Except.ok true⟩ sampleConfig sampleValues ∧
    runTrace envSample sampleConfig sampleValues
        = runTrace ⟨fun _ => true, fun _ => Except.ok true⟩ sampleConfig sampleValues ∧
    sortWithIndices sampleValues = sortWithIndices sampleValues ∧
    synthRun envSample sampleConfig sampleValues
        = Except.ok ((), canonicalTrace sampleConfig sampleValues) :=
  synthesize_deterministic envSample ⟨fun _ => true, fun _ => Except.ok true⟩
    sampleConfig sampleValues sampleValues rfl (fun _ => rfl) (fun _ => rfl)
    (by decide) (by decide)

lemma circuitConfigure_lt_config_getD {F : Type} [One F] (isLtFam : IsLtFun F)
    (extraCount : ℕ) (i : ℕ) (hi : i < NUM_ELEMENTS - 1) :
    ((circuitConfigure isLtFam extraCount).1.lt_configs.getD i default).lhs
        = Expression.Advice i (-1 - (i : ℤ)) ∧
    ((circuitConfigure isLtFam extraCount).1.lt_configs.getD i default).rhs
        = Expression.Advice (i + 1) (-1 - (i : ℤ)) := by
  have hi7 : i < 7 := hi
  interval_cases i <;> exact ⟨rfl, rfl⟩

/-- C4: for every comparator `i` in `0..N-2` (inclusive): its LessThanGadget is
configured with lhs = advice column `i` and rhs = advice column `i + 1`, both queried
at rotation `-1 - i`; during assignment its selector is enabled at row `i + 2` and a
row-1 advice copy writes the sorted outputs into columns `i` and `i + 1`; and
`(i + 2) + (-1 - i) = 1`, so evaluated at its own row the comparator reads row 1 —
the sorted output cells, not the raw inputs at row 0. -/
theorem comparator_reads_sorted_outputs {F : Type} [CommRing F] [LinearOrder F]
    (isLtFam : IsLtFun F) (extraCount : ℕ) (env : Halo2Env F) (values : List F)
    (i : ℕ) (hi : i < NUM_ELEMENTS - 1)
    (hok : ∀ op, env.structOk op = true) (h8 : values.length = NUM_ELEMENTS) :
    ((circuitConfigure isLtFam extraCount).1.lt_configs.getD i default).lhs
        = Expression.Advice i (-1 - (i : ℤ)) ∧
    ((circuitConfigure isLtFam extraCount).1.lt_configs.getD i default).rhs
        = Expression.Advice (i + 1) (-1 - (i : ℤ)) ∧
    RegionOp.enableSelector
        ((circuitConfigure isLtFam extraCount).1.lt_selectors.getD i 0) (i + 2)
      ∈ runTrace env (circuitConfigure isLtFam extraCount).1 values ∧
    (∃ s1 s2, RegionOp.copyAdvice s1 s2
        ((circuitConfigure isLtFam extraCount).1.advice.getD i 0) 1
      ∈ runTrace env (circuitConfigure isLtFam extraCount).1 values) ∧
    ((i : ℤ) + 2) + (-1 - (i : ℤ)) = 1 := by
  obtain ⟨hlhs, hrhs⟩ := circuitConfigure_lt_config_getD isLtFam extraCount i hi
  have htr : runTrace env (circuitConfigure isLtFam extraCount).1 values
      = canonicalTrace (circuitConfigure isLtFam extraCount).1 values := by
    unfold runTrace
    rw [synthRun_ok hok (circuitConfigure isLtFam extraCount).1 values h8 (by rfl)]
  refine ⟨hlhs, hrhs, ?_, ?_, by ring⟩
  · rw [htr]
    unfold canonicalTrace
    refine List.mem_cons_of_mem _
      (List.mem_append_left _ (List.mem_append_left _ (List.mem_append_right _ ?_)))
    exact List.mem_map.mpr ⟨i, List.mem_range.mpr hi, rfl⟩
  · have hi8 : i < NUM_ELEMENTS := by
      simp only [NUM_ELEMENTS] at hi ⊢
      omega
    refine ⟨(circuitConfigure isLtFam extraCount).1.advice.getD
        ((sortWithIndices values).2.getD i 0) 0, 0, ?_⟩
    rw [htr]
    unfold canonicalTrace
    refine List.mem_cons_of_mem _
      (List.mem_append_left _ (List.mem_append_left _
        (List.mem_append_left _ (List.mem_append_right _ ?_))))
    exact List.mem_map.mpr ⟨i, List.mem_range.mpr hi8, rfl⟩

/-- C4 witness: concrete instantiation over `Fin 17` at comparator `i = 0`. -/
theorem comparator_reads_sorted_outputs_witness :
    ((circuitConfigure isLtOne 0).1.lt_configs.getD 0 default).lhs
        = Expression.Advice 0 (-1 - ((0 : ℕ) : ℤ)) ∧
    ((circuitConfigure isLtOne 0).1.lt_configs.getD 0 default).rhs
        = Expression.Advice (0 + 1) (-1 - ((0 : ℕ) : ℤ)) ∧
    RegionOp.enableSelector
        ((circuitConfigure isLtOne 0).1.lt_selectors.getD 0 0) (0 + 2)
      ∈ runTrace envSample (circuitConfigure isLtOne 0).1 sampleValues ∧
    (∃ s1 s2, RegionOp.copyAdvice s1 s2
        ((circuitConfigure isLtOne 0).1.advice.getD 0 0) 1
      ∈ runTrace envSample (circuitConfigure isLtOne 0).1 sampleValues) ∧
    (((0 : ℕ) : ℤ) + 2) + (-1 - ((0 : ℕ) : ℤ)) = 1 :=
  comparator_reads_sorted_outputs isLtOne 0 envSample sampleValues 0 (by decide)
    (fun _ => rfl) (by decide)

set_option maxHeartbeats 2000000 in
/-- C3: the constraint system built by the configure stage contains exactly one gate;
its `NUM_ELEMENTS - 1` constraints are, for each `i` in `0..N-2` (inclusive),
`master_selector * (lt_configs[i].is_lt(Rotation(i + 2)) - 1)`; consequently, in any
valuation in which the gate is satisfied and the master selector is active, every
comparator's `is_lt` expression evaluates to 1. -/
theorem configure_single_sortedness_gate {F : Type} [CommRing F] (isLtFam : IsLtFun F)
    (extraCount : ℕ) (adv : ℕ → ℤ → F) (sel : ℕ → F)
    (hsat : ∀ g ∈ (circuitConfigure isLtFam extraCount).2.gates, ∀ c ∈ g,
      Expression.eval adv sel c = 0)
    (hmaster : sel (circuitConfigure isLtFam extraCount).1.master_selector = 1) :
    (circuitConfigure isLtFam extraCount).2.gates
      = [sortNGateConstraints isLtFam
          (circuitConfigure isLtFam extraCount).1.master_selector
          (circuitConfigure isLtFam extraCount).1.lt_configs] ∧
    (sortNGateConstraints isLtFam
        (circuitConfigure isLtFam extraCount).1.master_selector
        (circuitConfigure isLtFam extraCount).1.lt_configs).length
      = NUM_ELEMENTS - 1 ∧
    (∀ i, i < NUM_ELEMENTS - 1 →
      (sortNGateConstraints isLtFam
          (circuitConfigure isLtFam extraCount).1.master_selector
          (circuitConfigure isLtFam extraCount).1.lt_configs).getD i default
        = Expression.Product
            (Expression.Selector (circuitConfigure isLtFam extraCount).1.master_selector)
            (Expression.Sum
              (isLtFam ((circuitConfigure isLtFam extraCount).1.lt_configs.getD i default)
                ((i : ℤ) + 2))
              (Expression.Negated (Expression.Constant 1)))) ∧
    (∀ i, i < NUM_ELEMENTS - 1 →
      Expression.eval adv sel
        (isLtFam ((circuitConfigure isLtFam extraCount).1.lt_configs.getD i default)
          ((i : ℤ) + 2)) = 1) := by
  have hms : (circuitConfigure isLtFam extraCount).1.master_selector = 0 := rfl
  have hgate : (circuitConfigure isLtFam extraCount).2.gates
      = [sortNGateConstraints isLtFam
          (circuitConfigure isLtFam extraCount).1.master_selector
          (circuitConfigure isLtFam extraCount).1.lt_configs] := by
    rw [hms]
    rfl
  refine ⟨hgate, ?_, ?_, ?_⟩
  · unfold sortNGateConstraints
    rw [List.length_map, List.length_range]
  · intro i hi
    unfold sortNGateConstraints
    exact getD_map_range _ _ hi
  · intro i hi
    have hc := hsat _ (by rw [hgate]; exact List.mem_singleton.mpr rfl)
    have hmem : Expression.Product
        (Expression.Selector (circuitConfigure isLtFam extraCount).1.master_selector)
        (Expression.Sum
          (isLtFam ((circuitConfigure isLtFam extraCount).1.lt_configs.getD i default)
            ((i : ℤ) + 2))
          (Expression.Negated (Expression.Constant 1)))
        ∈ sortNGateConstraints isLtFam
            (circuitConfigure isLtFam extraCount).1.master_selector
            (circuitConfigure isLtFam extraCount).1.lt_configs := by
      unfold sortNGateConstraints
      exact List.mem_map.mpr ⟨i, List.mem_range.mpr hi, rfl⟩
    have h0 := hc _ hmem
    simp only [Expression.eval] at h0
    rw [hmaster, one_mul] at h0
    linear_combination h0

/-- C3 witness: concrete instantiation over `Fin 17` with `is_lt` constantly 1 and a
valuation that activates the master selector and satisfies the gate. -/
theorem configure_single_sortedness_gate_witness :
    (circuitConfigure isLtOne 0).2.gates
      = [sortNGateConstraints isLtOne
          (circuitConfigure isLtOne 0).1.master_selector
          (circuitConfigure isLtOne 0).1.lt_configs] ∧
    (sortNGateConstraints isLtOne
        (circuitConfigure isLtOne 0).1.master_selector
        (circuitConfigure isLtOne 0).1.lt_configs).length
      = NUM_ELEMENTS - 1 ∧
    (∀ i, i < NUM_ELEMENTS - 1 →
      (sortNGateConstraints isLtOne
          (circuitConfigure isLtOne 0).1.master_selector
          (circuitConfigure isLtOne 0).1.lt_configs).getD i default
        = Expression.Product
            (Expression.Selector (circuitConfigure isLtOne 0).1.master_selector)
            (Expression.Sum
              (isLtOne ((circuitConfigure isLtOne 0).1.lt_configs.getD i default)
                ((i : ℤ) + 2))
              (Expression.Negated (Expression.Constant 1)))) ∧
    (∀ i, i < NUM_ELEMENTS - 1 →
      Expression.eval (fun _ _ => (0 : Fin 17)) (fun _ => 1)
        (isLtOne ((circuitConfigure isLtOne 0).1.lt_configs.getD i default)
          ((i : ℤ) + 2)) = 1) :=
  configure_single_sortedness_gate isLtOne 0 (fun _ _ => (0 : Fin 17)) (fun _ => 1)
    (by decide) (by decide)

end SortN
